import Mathlib

/-!
# siftool `info.go`: size formatting, header rendering, descriptor info and data dump

A shallow embedding of `internal/app/siftool/info.go`.

* Unsigned machine integers (`uint64`, `uint32`) are natural numbers; the only
  arithmetic on them is `>>= 10`, which cannot overflow.
* A byte is a natural number; an `io.Writer` is the sequence of bytes written to it so far.
  Text is written as its UTF-8 encoding, so text values range over valid UTF-8 strings.
* `fmt` and `io.CopyN` and `text/tabwriter` belong to the Go standard library and are
  modelled by their documented behaviour.
* `pkg/sif` (the image type, descriptor lookup, readers, the descriptor formatter) and
  `withFileImage` are defined outside `info.go`; their models say so.
-/

namespace siftool

/-! ## Errors, writers, readers -/

/-- Go `error` values that occur here. -/
inductive Error where
  /-- The lookup error of `pkg/sif`: no occupied descriptor has the requested ID. -/
  | ErrNotFound
  /-- The `io.EOF` value: the source has no more bytes. -/
  | EOF
  /-- Any other error (failure to open or decode a file, a failed read). -/
  | other (msg : String)
deriving DecidableEq, Repr

/-- An `io.Writer`, seen as the bytes written to it so far.  Writes are appended and accepted. -/
abbrev Writer := List Nat

/-- The UTF-8 bytes of one character. -/
def utf8EncodeChar (c : Char) : List Nat :=
  let v := c.toNat
  if v ≤ 0x7f then [v]
  else if v ≤ 0x7ff then [v / 0x40 % 0x20 + 0xc0, v % 0x40 + 0x80]
  else if v ≤ 0xffff then [v / 0x1000 % 0x10 + 0xe0, v / 0x40 % 0x40 + 0x80, v % 0x40 + 0x80]
  else [v / 0x40000 % 0x08 + 0xf0, v / 0x1000 % 0x40 + 0x80, v / 0x40 % 0x40 + 0x80,
    v % 0x40 + 0x80]

/-- The bytes of a text (Go strings are written as UTF-8). -/
def utf8 (s : List Char) : List Nat := s.flatMap utf8EncodeChar

/-- The number of lines written: the number of newline bytes. -/
def lineCount (w : Writer) : Nat := w.count 10

/-- The `fmt.Fprint` call with one string operand: writes the operand, reports the write's error. -/
def Fprint (w : Writer) (s : String) : Writer × Option Error :=
  (w ++ utf8 s.data, none)

/-- An `io.Reader`: the bytes it still yields, and the error it reports once they are used up
(`EOF` for a source that simply ends). -/
structure Reader where
  data : List Nat
  fail : Error
deriving DecidableEq, Repr

/-- The `io.CopyN` function: copies `n` bytes (or until an error) from `src` to `dst`.  It returns
the sink, the number of bytes copied and the earliest error met; the error is `nil` exactly when
`n` bytes were copied, and `EOF` when the source ended early. -/
def CopyN (dst : Writer) (src : Reader) (n : Nat) : Writer × Nat × Option Error :=
  let chunk := src.data.take n
  if chunk.length = n then (dst ++ chunk, n, none)
  else (dst ++ chunk, chunk.length, some src.fail)

/-- The `strings.TrimSuffix` function: `s` without the trailing `suffix`, or `s` itself. -/
def TrimSuffix (s suffix : String) : String :=
  if suffix.data.isSuffixOf s.data then ⟨s.data.take (s.data.length - suffix.data.length)⟩
  else s

end siftool

/-! ## `text/tabwriter`, as configured by `writeHeader`

`tabwriter.NewWriter(w, 0, 0, 0, ' ', 0)`: minimal width 0, padding 0, pad character space, no
flags.  Cells are terminated by a horizontal or vertical tab, lines by a newline or a form feed.
The tab-terminated cells of a column in contiguous lines form a column block and are padded with
spaces to the widest cell of the block; the last cell of a line belongs to no column.  A text is a
list of characters, so a cell's width is its length. -/

namespace tabwriter

/-- A cell: its text, and whether a horizontal tab terminated it. -/
structure cell where
  text : List Char
  htab : Bool
deriving DecidableEq, Repr

/-- The width of a cell in characters. -/
def cell.width (c : cell) : Nat := c.text.length

/-- The tabwriter's state: the underlying writer, the buffered complete lines, the cells of the
line being read, and the text of the cell being read. -/
structure Writer where
  output : siftool.Writer
  lines : List (List cell)
  line : List cell
  cell : List Char
deriving DecidableEq, Repr

/-- One line of `writeLines`: each cell's text, padded with spaces to its column's width when
the column has one. -/
def writeCells : List Nat → List cell → List Char
  | _, [] => []
  | [], c :: cs => c.text ++ writeCells [] cs
  | w :: ws, c :: cs => c.text ++ List.replicate (w - c.width) ' ' ++ writeCells ws cs

/-- Whether a line has a cell in `column` (`column < len(line)-1`: the last cell does not count). -/
def hasColumn (column : Nat) (line : List cell) : Bool := column + 1 < line.length

/-- The maximal runs of contiguous lines that all have, or all lack, a cell in `column`. -/
def columnBlocks (column : Nat) : List (List cell) → List (Bool × List (List cell))
  | [] => []
  | l :: ls =>
    match columnBlocks column ls with
    | (b, block) :: rest =>
      if hasColumn column l = b then (b, l :: block) :: rest
      else (hasColumn column l, [l]) :: (b, block) :: rest
    | [] => [(hasColumn column l, [l])]

/-- The width of a column block: the widest cell of the column (minimal width and padding 0). -/
def blockWidth (column : Nat) (block : List (List cell)) : Nat :=
  block.foldl (fun width line =>
    match line.get? column with
    | some c => if c.width > width then c.width else width
    | none => width) 0

/-- The `format` method: lines without a cell in the next column are written with the widths
known so far; each column block fixes its width and is formatted for the columns to its right.
`fuel` bounds the number of columns still to examine. -/
def format : Nat → List Nat → List (List cell) → List (List Char)
  | 0, widths, lines => lines.map (writeCells widths)
  | fuel + 1, widths, lines =>
    (columnBlocks widths.length lines).flatMap fun blk =>
      if blk.1 then format fuel (widths ++ [blockWidth widths.length blk.2]) blk.2
      else blk.2.map (writeCells widths)

/-- The largest number of cells in a line. -/
def maxCells (lines : List (List cell)) : Nat :=
  lines.foldl (fun m line => max m line.length) 0

/-- The text of the buffered lines: every line but the last is followed by a newline. -/
def render (lines : List (List cell)) : List Char :=
  List.intercalate ['\n'] (format (maxCells lines) [] lines)

/-- The `NewWriter` function with the parameters `0, 0, 0, ' ', 0`. -/
def NewWriter (output : siftool.Writer) : Writer := ⟨output, [], [], []⟩

/-- One character of `Write`.  A tab ends the cell.  A newline or form feed ends the cell and the
line; a form feed, or a line of a single cell, flushes the buffered lines. -/
def Writer.put (b : Writer) (ch : Char) : Writer :=
  if ch = '\t' ∨ ch = '\x0b' then
    { b with line := b.line ++ [⟨b.cell, ch = '\t'⟩], cell := [] }
  else if ch = '\n' ∨ ch = '\x0c' then
    let line := b.line ++ [⟨b.cell, false⟩]
    if ch = '\x0c' ∨ line.length = 1 then
      { output := b.output ++ siftool.utf8 (render (b.lines ++ [line, []])),
        lines := [], line := [], cell := [] }
    else
      { b with lines := b.lines ++ [line], line := [], cell := [] }
  else
    { b with cell := b.cell ++ [ch] }

/-- The `Write` method. -/
def Writer.Write (b : Writer) (buf : List Char) : Writer := buf.foldl Writer.put b

/-- The `Flush` method: the pending cell, if not empty, ends the last line; all buffered lines
are formatted and written to the underlying writer. -/
def Writer.Flush (b : Writer) : siftool.Writer × Option siftool.Error :=
  let line := if b.cell.isEmpty then b.line else b.line ++ [⟨b.cell, false⟩]
  (b.output ++ siftool.utf8 (render (b.lines ++ [line])), none)

/-- The `fmt.Fprintln` call with two operands on a tabwriter: the operands separated by a space,
then a newline. -/
def Fprintln (tw : Writer) (a b : String) : Writer :=
  tw.Write (a.data ++ ' ' :: b.data ++ ['\n'])

/-- A text without the characters that end a cell or a line: horizontal tab, vertical tab,
newline, form feed. -/
def plain (s : List Char) : Prop :=
  ∀ c ∈ s, c ≠ '\t' ∧ c ≠ '\x0b' ∧ c ≠ '\n' ∧ c ≠ '\x0c'

instance (s : List Char) : Decidable (plain s) := by
  unfold plain; infer_instance

/-- The cells of a line made of one tab-terminated label and the text after it. -/
def rowLine (r : List Char × List Char) : List cell := [⟨r.1, true⟩, ⟨r.2, false⟩]

end tabwriter

namespace siftool

/-! ## The image -/

/-- A descriptor slot (`sif.Descriptor`): occupancy, ID, object type, and the byte range of its
data object. -/
structure Descriptor where
  Used : Bool
  ID : Nat
  Datatype : Nat
  Fileoff : Nat
  Filelen : Nat
deriving DecidableEq, Repr

/-- A loaded image (`sif.FileImage`): the values its header accessors return (texts as they
print, counts and sizes as unsigned integers), the descriptor table, and the bytes of the data
source together with the error a read past them reports. -/
structure FileImage where
  LaunchScript : String
  Version : String
  PrimaryArch : String
  ID : String
  CreatedAt : String
  ModifiedAt : String
  DescriptorsFree : Nat
  DescriptorsTotal : Nat
  DescriptorSectionOffset : Nat
  DescriptorSectionSize : Nat
  DataSectionOffset : Nat
  DataSectionSize : Nat
  DescrArr : List Descriptor
  fp : Reader
deriving DecidableEq, Repr

/-- Modelled from the spec: the Descriptor Resolver `GetFromDescrID` of `pkg/sif`, defined
outside `info.go`.  It locates the occupied slot whose ID matches exactly and fails with a
NotFound error when no occupied slot has that ID.  (The slot index that the call also returns is
discarded by `Dump`.) -/
def GetFromDescrID (f : FileImage) (id : Nat) : Except Error Descriptor :=
  match f.DescrArr.find? (fun d => d.Used && d.ID == id) with
  | some d => .ok d
  | none => .error .ErrNotFound

/-- Modelled from the spec: the reader `GetReader` of `pkg/sif`, defined outside `info.go`:
a reader positioned at the start of the descriptor's byte range in the data source.  The
source is open-ended: it goes on to whatever bytes follow the object. -/
def Descriptor.GetReader (d : Descriptor) (f : FileImage) : Reader :=
  { data := f.fp.data.drop d.Fileoff, fail := f.fp.fail }

/-- Modelled from the spec: the loader `withFileImage`, defined outside `info.go`.  Given
a path it opens and decodes the file and runs `fn` on the image; a failure to open or decode is
returned unchanged and `fn` is not run.  `fs` maps a path to what loading it gives. -/
def withFileImage (fs : String → Except Error FileImage) (path : String) (out : Writer)
    (fn : FileImage → Writer × Option Error) : Writer × Option Error :=
  match fs path with
  | .error err => (out, some err)
  | .ok f => fn f

/-- Modelled from the spec: the descriptor formatter `FmtDescrInfo` of `pkg/sif`, defined
outside `info.go`.  It returns the pre-rendered text of the occupied descriptor with the given ID,
one labelled line per attribute, and no text at all when no occupied descriptor has that ID. -/
def FmtDescrInfo (f : FileImage) (id : Nat) : String :=
  match f.DescrArr.find? (fun d => d.Used && d.ID == id) with
  | some d =>
    "ID: " ++ Nat.repr d.ID ++ "\n" ++ "Datatype: " ++ Nat.repr d.Datatype ++ "\n" ++
    "Fileoff: " ++ Nat.repr d.Fileoff ++ "\n" ++ "Filelen: " ++ Nat.repr d.Filelen ++ "\n"
  | none => ""

/-! ## `info.go` -/

/-- The loop of `readableSize`: `for ; size != 0; size >>= 10 { if size < 1024 { break }; divs++ }`.
It returns the final `size` and `divs`. -/
def readableSizeLoop (size divs : Nat) : Nat × Nat :=
  if size ≠ 0 then
    if size < 1024 then (size, divs)
    else readableSizeLoop (size >>> 10) (divs + 1)
  else (size, divs)
termination_by size
decreasing_by
  simp only [Nat.shiftRight_eq_div_pow]
  omega

/-- The function `readableSize`: the size in human readable format. -/
def readableSize (size : Nat) : String :=
  match readableSizeLoop size 0 with
  | (size, 4) => Nat.repr size ++ "TB"
  | (size, 3) => Nat.repr size ++ "GB"
  | (size, 2) => Nat.repr size ++ "MB"
  | (size, 1) => Nat.repr size ++ "KB"
  | (size, _) => Nat.repr size

/-- The function `writeHeader`: writes header information in `f` to `w`. -/
def writeHeader (w : Writer) (f : FileImage) : Writer × Option Error :=
  let tw := tabwriter.NewWriter w
  let tw := tabwriter.Fprintln tw "Launch:\t" (TrimSuffix f.LaunchScript "\n")
  let tw := tabwriter.Fprintln tw "Version:\t" f.Version
  let tw := tabwriter.Fprintln tw "Arch:\t" f.PrimaryArch
  let tw := tabwriter.Fprintln tw "ID:\t" f.ID
  let tw := tabwriter.Fprintln tw "Ctime:\t" f.CreatedAt
  let tw := tabwriter.Fprintln tw "Mtime:\t" f.ModifiedAt
  let tw := tabwriter.Fprintln tw "Dfree:\t" (Nat.repr f.DescriptorsFree)
  let tw := tabwriter.Fprintln tw "Dtotal:\t" (Nat.repr f.DescriptorsTotal)
  let tw := tabwriter.Fprintln tw "Descoff:\t" (Nat.repr f.DescriptorSectionOffset)
  let tw := tabwriter.Fprintln tw "Descrlen:\t" (readableSize f.DescriptorSectionSize)
  let tw := tabwriter.Fprintln tw "Dataoff:\t" (Nat.repr f.DataSectionOffset)
  let tw := tabwriter.Fprintln tw "Datalen:\t" (readableSize f.DataSectionSize)
  tw.Flush

/-- The application (`App`): `out` is the output writer `a.opts.out`. -/
structure App where
  out : Writer
deriving DecidableEq, Repr

/-- The method `Header`: displays a SIF file global header. -/
def App.Header (a : App) (fs : String → Except Error FileImage) (path : String) :
    Writer × Option Error :=
  withFileImage fs path a.out fun f => writeHeader a.out f

/-- The method `Info`: displays detailed info about a descriptor from a SIF file. -/
def App.Info (a : App) (fs : String → Except Error FileImage) (path : String) (id : Nat) :
    Writer × Option Error :=
  withFileImage fs path a.out fun f => Fprint a.out (FmtDescrInfo f id)

/-- The method `Dump`: extracts and outputs a data object from a SIF file. -/
def App.Dump (a : App) (fs : String → Except Error FileImage) (path : String) (id : Nat) :
    Writer × Option Error :=
  withFileImage fs path a.out fun f =>
    match GetFromDescrID f id with
    | .error err => (a.out, some err)
    | .ok d =>
      let r := CopyN a.out (d.GetReader f) d.Filelen
      (r.1, r.2.2)

/-! ## Sample images -/

/-- An image with descriptor-section size 4096, data-section size 8192 and one occupied
descriptor of ID 1, offset 0 and length 100; the data source holds the 100 bytes of the object
and 20 bytes more. -/
def sampleImage : FileImage :=
  { LaunchScript := "#!/usr/bin/env run-singularity\n"
    Version := "01"
    PrimaryArch := "amd64"
    ID := "7fa9d4a3-2bb0-4c5e-9a4b-1c2d3e4f5a6b"
    CreatedAt := "2021-06-01 12:00:00 +0000 UTC"
    ModifiedAt := "2021-06-02 08:30:00 +0000 UTC"
    DescriptorsFree := 47
    DescriptorsTotal := 48
    DescriptorSectionOffset := 4096
    DescriptorSectionSize := 4096
    DataSectionOffset := 32768
    DataSectionSize := 8192
    DescrArr := [⟨true, 1, 2, 0, 100⟩, ⟨false, 0, 0, 0, 0⟩]
    fp := ⟨List.replicate 100 7 ++ List.replicate 20 9, .EOF⟩ }

/-- The sample image with a data source cut off after 40 bytes. -/
def truncatedImage : FileImage :=
  { sampleImage with fp := ⟨List.replicate 40 7, .EOF⟩ }

/-- The sample image with a launch script of two lines. -/
def twoLineLaunchImage : FileImage :=
  { sampleImage with LaunchScript := "#!/bin/sh\nexec run\n" }

/-- A loader that finds the given image at every path. -/
def loaded (f : FileImage) : String → Except Error FileImage := fun _ => .ok f

end siftool

/-! ## Lemmas on the tabwriter -/

namespace tabwriter

theorem put_plain (b : Writer) (c : Char)
    (h : c ≠ '\t' ∧ c ≠ '\x0b' ∧ c ≠ '\n' ∧ c ≠ '\x0c') :
    b.put c = { b with cell := b.cell ++ [c] } := by
  obtain ⟨h1, h2, h3, h4⟩ := h
  simp [Writer.put, h1, h2, h3, h4]

theorem Write_plain (cs : List Char) : ∀ (b : Writer), plain cs →
    b.Write cs = { b with cell := b.cell ++ cs } := by
  induction cs with
  | nil => intro b _; simp [Writer.Write]
  | cons c cs ih =>
    intro b h
    have hc := h c (List.mem_cons_self c cs)
    have hcs : plain cs := fun x hx => h x (List.mem_cons_of_mem c hx)
    have := ih (b.put c) hcs
    simp only [Writer.Write, List.foldl_cons] at this ⊢
    rw [this, put_plain b c hc]
    simp

theorem Write_append (b : Writer) (xs ys : List Char) :
    b.Write (xs ++ ys) = (b.Write xs).Write ys := by
  simp [Writer.Write, List.foldl_append]

/-- One `Fprintln` of a tab-terminated label and a plain value adds one line of two cells. -/
theorem Fprintln_row (b : Writer) (l v : String) (lt : List Char)
    (hl : l.data = lt ++ ['\t']) (hlt : plain lt) (hv : plain v.data)
    (h1 : b.line = []) (h2 : b.cell = []) :
    Fprintln b l v =
      ⟨b.output, b.lines ++ [[⟨lt, true⟩, ⟨' ' :: v.data, false⟩]], [], []⟩ := by
  have hsp : plain (' ' :: v.data) := by
    intro c hc
    rcases List.mem_cons.1 hc with rfl | hc
    · decide
    · exact hv c hc
  unfold Fprintln
  rw [hl, Write_append, Write_append, Write_append b lt, Write_plain lt b hlt]
  have e1 : ({ b with cell := b.cell ++ lt } : Writer).Write ['\t'] =
      ⟨b.output, b.lines, [⟨lt, true⟩], []⟩ := by
    simp [Writer.Write, Writer.put, h1, h2]
  rw [e1, Write_plain _ _ hsp]
  simp [Writer.Write, Writer.put]

theorem plain_append {s t : List Char} (hs : plain s) (ht : plain t) : plain (s ++ t) := by
  intro c hc
  rcases List.mem_append.1 hc with h | h
  · exact hs c h
  · exact ht c h

theorem plain_digitChar : ∀ d, d < 10 → plain [Nat.digitChar d] := by decide

theorem plain_toDigitsCore : ∀ (fuel n : Nat) (ds : List Char), plain ds →
    plain (Nat.toDigitsCore 10 fuel n ds) := by
  intro fuel
  induction fuel with
  | zero => intro n ds h; simpa [Nat.toDigitsCore] using h
  | succ fuel ih =>
    intro n ds h
    have hd : plain (Nat.digitChar (n % 10) :: ds) :=
      plain_append (plain_digitChar (n % 10) (Nat.mod_lt n (by decide))) h
    simp only [Nat.toDigitsCore]
    split
    · exact hd
    · exact ih _ _ hd

/-- The decimal digits of a number contain no tab or line break. -/
theorem plain_repr (n : Nat) : plain (Nat.repr n).data := by
  simp only [Nat.repr, Nat.toDigits, List.asString]
  exact plain_toDigitsCore _ _ _ (by intro c hc; cases hc)

theorem columnBlocks_zero_rows (rows : List (List Char × List Char)) :
    columnBlocks 0 (rows.map rowLine ++ [[]]) =
      if rows = [] then [(false, [[]])] else [(true, rows.map rowLine), (false, [[]])] := by
  induction rows with
  | nil => simp [columnBlocks, hasColumn]
  | cons r rs ih =>
    rw [List.map_cons, List.cons_append, columnBlocks, ih]
    by_cases h : rs = []
    · subst h; simp [hasColumn, rowLine]
    · simp [h, hasColumn, rowLine]

theorem columnBlocks_one_rows (rows : List (List Char × List Char)) (h : rows ≠ []) :
    columnBlocks 1 (rows.map rowLine) = [(false, rows.map rowLine)] := by
  induction rows with
  | nil => exact absurd rfl h
  | cons r rs ih =>
    by_cases h' : rs = []
    · subst h'; simp [columnBlocks, hasColumn, rowLine]
    · simp [columnBlocks, ih h', hasColumn, rowLine]

theorem foldl_max_rows (rows : List (List Char × List Char)) : ∀ m : Nat,
    List.foldl (fun m (line : List cell) => max m line.length) m (rows.map rowLine ++ [[]]) =
      if rows = [] then m else max m 2 := by
  induction rows with
  | nil => intro m; simp
  | cons r rs ih =>
    intro m
    simp only [List.map_cons, List.cons_append, List.foldl_cons, ih]
    by_cases h : rs = []
    · simp [h, rowLine]
    · simp [h, rowLine]

theorem intercalate_append_nil (sep : List Char) (xs : List (List Char)) :
    List.intercalate sep (xs ++ [[]]) = (xs.map (fun x => x ++ sep)).flatten := by
  induction xs with
  | nil => simp [List.intercalate]
  | cons x xs ih =>
    obtain ⟨y, zs, hyz⟩ : ∃ y zs, xs ++ [[]] = y :: zs :=
      List.exists_cons_of_ne_nil (by simp)
    simp only [List.intercalate] at ih ⊢
    rw [List.cons_append, hyz, List.intersperse_cons₂, List.flatten_cons, List.flatten_cons,
      ← hyz, ih]
    simp

/-- Lines of one label and one value each, followed by the empty last line: every label is
padded to the widest label, and every line ends with a newline. -/
theorem render_rows (rows : List (List Char × List Char)) (h : rows ≠ []) :
    render (rows.map rowLine ++ [[]]) =
      (rows.map (fun r => r.1 ++ List.replicate
        (blockWidth 0 (rows.map rowLine) - r.1.length) ' ' ++ r.2 ++ ['\n'])).flatten := by
  have hm : maxCells (rows.map rowLine ++ [[]]) = 2 := by
    rw [maxCells, foldl_max_rows]
    simp [h]
  rw [render, hm]
  simp only [format, List.length_nil, columnBlocks_zero_rows, h, if_false, List.flatMap_cons,
    List.flatMap_nil, if_true, List.nil_append, List.length_singleton,
    columnBlocks_one_rows rows h, List.append_nil, List.map_cons, List.map_nil, writeCells]
  simp only [Bool.false_eq_true, if_false, List.append_nil, intercalate_append_nil, List.map_map]
  congr 1
  apply List.map_congr_left
  intro r _
  simp [rowLine, writeCells, cell.width]

theorem format_nil (fuel : Nat) (widths : List Nat) : format fuel widths [] = [] := by
  cases fuel <;> simp [format, columnBlocks]

theorem flatMap_congr_mem {α β : Type} (f g : α → List β) :
    ∀ l : List α, (∀ x ∈ l, f x = g x) → l.flatMap f = l.flatMap g := by
  intro l
  induction l with
  | nil => intro _; rfl
  | cons x xs ih =>
    intro h
    rw [List.flatMap_cons, List.flatMap_cons, h x (List.mem_cons_self x xs),
      ih (fun y hy => h y (List.mem_cons_of_mem x hy))]

/-- The lines of a block are lines of the input and agree with the block on having the column. -/
theorem columnBlocks_mem (column : Nat) : ∀ (lines : List (List cell)),
    ∀ blk ∈ columnBlocks column lines, ∀ l ∈ blk.2, l ∈ lines ∧ hasColumn column l = blk.1 := by
  intro lines
  induction lines with
  | nil => intro blk hblk; simp [columnBlocks] at hblk
  | cons x xs ih =>
    intro blk hblk l hl
    rw [columnBlocks] at hblk
    cases hcb : columnBlocks column xs with
    | nil =>
      rw [hcb] at hblk
      simp only [List.mem_singleton] at hblk
      subst hblk
      simp only [List.mem_singleton] at hl
      subst hl
      exact ⟨List.mem_cons_self _ _, rfl⟩
    | cons hd rest =>
      obtain ⟨b, block⟩ := hd
      rw [hcb] at hblk ih
      simp only at hblk
      split_ifs at hblk with hb
      · rcases List.mem_cons.1 hblk with rfl | hrest
        · rcases List.mem_cons.1 hl with rfl | hl'
          · exact ⟨List.mem_cons_self _ _, hb⟩
          · have := ih (b, block) (List.mem_cons_self _ _) l hl'
            exact ⟨List.mem_cons_of_mem _ this.1, this.2⟩
        · have := ih blk (List.mem_cons_of_mem _ hrest) l hl
          exact ⟨List.mem_cons_of_mem _ this.1, this.2⟩
      · rcases List.mem_cons.1 hblk with rfl | hrest
        · simp only [List.mem_singleton] at hl
          subst hl
          exact ⟨List.mem_cons_self _ _, rfl⟩
        · have := ih blk hrest l hl
          exact ⟨List.mem_cons_of_mem _ this.1, this.2⟩

/-- The blocks, put together again, are the lines. -/
theorem columnBlocks_flatten (column : Nat) : ∀ (lines : List (List cell)),
    (columnBlocks column lines).flatMap (fun blk => blk.2) = lines := by
  intro lines
  induction lines with
  | nil => simp [columnBlocks]
  | cons x xs ih =>
    rw [columnBlocks]
    cases hcb : columnBlocks column xs with
    | nil =>
      rw [hcb] at ih
      simp at ih
      simp [← ih]
    | cons hd rest =>
      obtain ⟨b, block⟩ := hd
      rw [hcb] at ih
      simp only
      split_ifs
      · simp only [List.flatMap_cons, List.cons_append] at ih ⊢
        rw [ih]
      · simp only [List.flatMap_cons, List.cons_append, List.nil_append] at ih ⊢
        rw [ih]

/-- Where no line has a cell in the next column, `format` writes the lines as they are. -/
theorem format_noColumn (fuel : Nat) (widths : List Nat) (lines : List (List cell))
    (h : ∀ l ∈ lines, hasColumn widths.length l = false) :
    format fuel widths lines = lines.map (writeCells widths) := by
  cases fuel with
  | zero => rfl
  | succ n =>
    rw [format]
    rw [flatMap_congr_mem _ (fun blk => blk.2.map (writeCells widths))]
    · conv => rhs; rw [← columnBlocks_flatten widths.length lines]
      simp [List.flatMap, List.map_flatten]
      rfl
    · intro blk hblk
      cases hb : blk.1 with
      | false => simp
      | true =>
        have hnil : blk.2 = [] := by
          cases hbl : blk.2 with
          | nil => rfl
          | cons l ls =>
            have hm := columnBlocks_mem widths.length lines blk hblk l (by rw [hbl]; simp)
            rw [h l hm.1, hb] at hm
            exact absurd hm.2 (by simp)
        simp [hnil, format_nil]

/-- One more unit of fuel than the columns that can exist changes nothing. -/
theorem format_fuel_succ : ∀ (fuel : Nat) (widths : List Nat) (lines : List (List cell)),
    (∀ l ∈ lines, l.length ≤ fuel + widths.length + 1) →
    format (fuel + 1) widths lines = format fuel widths lines := by
  intro fuel
  induction fuel with
  | zero =>
    intro widths lines h
    have hno : ∀ l ∈ lines, hasColumn widths.length l = false := by
      intro l hl
      have := h l hl
      simp only [hasColumn, decide_eq_false_iff_not]
      omega
    rw [format_noColumn _ _ _ hno, format_noColumn _ _ _ hno]
  | succ n ih =>
    intro widths lines h
    rw [format, format]
    apply flatMap_congr_mem
    intro blk hblk
    cases hb : blk.1 with
    | false => simp
    | true =>
      simp only [if_true]
      apply ih
      intro l hl
      have := h l (columnBlocks_mem widths.length lines blk hblk l hl).1
      simp only [List.length_append, List.length_singleton]
      omega

theorem le_foldl_max (lines : List (List cell)) : ∀ m : Nat,
    m ≤ lines.foldl (fun m line => max m line.length) m ∧
      ∀ l ∈ lines, l.length ≤ lines.foldl (fun m line => max m line.length) m := by
  induction lines with
  | nil => intro m; simp
  | cons x xs ih =>
    intro m
    simp only [List.foldl_cons]
    obtain ⟨h1, h2⟩ := ih (max m x.length)
    refine ⟨le_trans (le_max_left _ _) h1, ?_⟩
    intro l hl
    rcases List.mem_cons.1 hl with rfl | hl
    · exact le_trans (le_max_right _ _) h1
    · exact h2 l hl

/-- The fuel `render` gives to `format` is enough: more fuel gives the same text. -/
theorem format_fuel_enough (lines : List (List cell)) (k : Nat) :
    format (maxCells lines + k) [] lines = format (maxCells lines) [] lines := by
  induction k with
  | zero => rfl
  | succ k ih =>
    rw [← ih, ← Nat.add_assoc]
    apply format_fuel_succ
    intro l hl
    have := (le_foldl_max lines 0).2 l hl
    simp only [maxCells, List.length_nil] at this ⊢
    omega

end tabwriter

/-! ## Lemmas on `info.go` -/

namespace siftool
open tabwriter

theorem count_newline_utf8EncodeChar (c : Char) :
    List.count 10 (utf8EncodeChar c) = if c = '\n' then 1 else 0 := by
  have hc : c = '\n' ↔ c.toNat = 10 := by
    constructor
    · rintro rfl; rfl
    · intro h
      have := Char.ofNat_toNat c
      rw [h] at this
      exact this.symm
  unfold utf8EncodeChar
  simp only [hc]
  split_ifs <;> simp [List.count_cons] <;> omega

/-- The newline bytes of an encoded text are its newline characters. -/
theorem lineCount_utf8 (s : List Char) : lineCount (utf8 s) = s.count '\n' := by
  induction s with
  | nil => simp [lineCount, utf8]
  | cons c cs ih =>
    simp only [lineCount, utf8, List.flatMap_cons, List.count_append] at ih ⊢
    rw [ih, count_newline_utf8EncodeChar, List.count_cons]
    by_cases h : c = '\n'
    · simp [h]; omega
    · simp [h]

theorem count_newline_plain (s : List Char) (h : plain s) : s.count '\n' = 0 := by
  rw [List.count_eq_zero]
  intro hmem
  exact (h _ hmem).2.2.1 rfl

theorem readableSizeLoop_lt (size divs : Nat) (h : size < 1024) :
    readableSizeLoop size divs = (size, divs) := by
  rw [readableSizeLoop]
  by_cases h0 : size = 0
  · simp [h0]
  · simp [h0, h]

theorem readableSizeLoop_ge (size divs : Nat) (h : 1024 ≤ size) :
    readableSizeLoop size divs = readableSizeLoop (size / 1024) (divs + 1) := by
  rw [readableSizeLoop]
  have h0 : size ≠ 0 := by omega
  have h1 : ¬ size < 1024 := by omega
  simp [h0, h1, Nat.shiftRight_eq_div_pow]

/-- A size in `[1024^k, 1024^(k+1))` leaves the loop after `k` shifts, divided by `1024^k`. -/
theorem readableSizeLoop_band (k : Nat) : ∀ (size divs : Nat),
    1024 ^ k ≤ size → size < 1024 ^ (k + 1) →
    readableSizeLoop size divs = (size / 1024 ^ k, divs + k) := by
  induction k with
  | zero =>
    intro size divs _ h
    simpa using readableSizeLoop_lt size divs (by simpa using h)
  | succ k ih =>
    intro size divs hlo hhi
    have hge : 1024 ≤ size := by
      calc 1024 = 1024 ^ 1 := by norm_num
        _ ≤ 1024 ^ (k + 1) := Nat.pow_le_pow_right (by decide) (by omega)
        _ ≤ size := hlo
    rw [readableSizeLoop_ge size divs hge]
    have h1 : 1024 ^ k ≤ size / 1024 := by
      rw [Nat.le_div_iff_mul_le (by decide)]
      calc 1024 ^ k * 1024 = 1024 ^ (k + 1) := by ring
        _ ≤ size := hlo
    have h2 : size / 1024 < 1024 ^ (k + 1) := by
      rw [Nat.div_lt_iff_lt_mul (by decide)]
      calc size < 1024 ^ (k + 1 + 1) := hhi
        _ = 1024 ^ (k + 1) * 1024 := by ring
    rw [ih (size / 1024) (divs + 1) h1 h2, Nat.div_div_eq_div_mul]
    have e1 : 1024 * 1024 ^ k = 1024 ^ (k + 1) := by ring
    have e2 : divs + 1 + k = divs + (k + 1) := by omega
    rw [e1, e2]

/-- The loop returns for every size: it shifts by 10 bits `k` times, where `k` is the first
count at which the value is below 1024 (every earlier value is 1024 or more), and that value
and `divs + k` are what the loop yields. -/
theorem readableSizeLoop_total (size : Nat) : ∀ divs : Nat,
    ∃ k, readableSizeLoop size divs = (size >>> (10 * k), divs + k) ∧
      size >>> (10 * k) < 1024 ∧ ∀ j, j < k → 1024 ≤ size >>> (10 * j) := by
  induction size using Nat.strong_induction_on with
  | _ size ih =>
    intro divs
    by_cases h : size < 1024
    · exact ⟨0, by simpa using readableSizeLoop_lt size divs h, by simpa using h,
        fun j hj => absurd hj (Nat.not_lt_zero j)⟩
    · have hge : 1024 ≤ size := by omega
      obtain ⟨k, hk, hlt, hmin⟩ := ih (size / 1024) (by omega) (divs + 1)
      have hshift : ∀ j, size >>> (10 * (j + 1)) = (size / 1024) >>> (10 * j) := by
        intro j
        simp only [Nat.shiftRight_eq_div_pow, Nat.div_div_eq_div_mul]
        have : 2 ^ (10 * (j + 1)) = 1024 * 2 ^ (10 * j) := by ring
        rw [this]
      refine ⟨k + 1, ?_, ?_, ?_⟩
      · rw [readableSizeLoop_ge size divs hge, hk, hshift]
        have e2 : divs + 1 + k = divs + (k + 1) := by omega
        rw [e2]
      · rw [hshift]
        exact hlt
      · intro j hj
        cases j with
        | zero => simpa using hge
        | succ j =>
          rw [hshift]
          exact hmin j (by omega)

/-- The text `readableSize` returns, from what its loop yields. -/
theorem readableSize_of_loop (n size divs : Nat) (h : readableSizeLoop n 0 = (size, divs)) :
    readableSize n = Nat.repr size ++
      (if divs = 4 then "TB" else if divs = 3 then "GB" else if divs = 2 then "MB"
        else if divs = 1 then "KB" else "") := by
  unfold readableSize
  rw [h]
  split <;> simp_all

theorem plain_readableSize (n : Nat) : plain (readableSize n).data := by
  unfold readableSize
  split <;> first
    | exact plain_repr _
    | (rw [String.data_append]; exact plain_append (plain_repr _) (by decide))

theorem readableSize_4096 : readableSize 4096 = "4KB" := by
  rw [readableSize_of_loop 4096 4 1 (readableSizeLoop_band 1 4096 0 (by decide) (by decide))]
  decide

theorem readableSize_8192 : readableSize 8192 = "8KB" := by
  rw [readableSize_of_loop 8192 8 1 (readableSizeLoop_band 1 8192 0 (by decide) (by decide))]
  decide

theorem data_foldl_append (l : List String) : ∀ acc : String,
    (l.foldl (fun r s => r ++ s) acc).data = acc.data ++ (l.map String.data).flatten := by
  induction l with
  | nil => intro acc; simp
  | cons x xs ih => intro acc; simp [ih, String.data_append]

/-- Rows without line breaks, each followed by a newline, make as many lines as there are rows. -/
theorem count_newline_rows (rows : List String) (h : ∀ r ∈ rows, plain r.data) :
    (String.join (rows.map (fun row => row ++ "\n"))).data.count '\n' = rows.length := by
  rw [String.join, data_foldl_append]
  induction rows with
  | nil => rfl
  | cons r rs ih =>
    have hr := count_newline_plain _ (h r (List.mem_cons_self r rs))
    have hrs := ih (fun x hx => h x (List.mem_cons_of_mem r hx))
    simp only [List.map_cons, List.flatten_cons, List.count_append, String.data_append,
      List.length_cons] at hrs ⊢
    rw [hr]
    have h1 : List.count '\n' ['\n'] = 1 := rfl
    have h0 : List.count '\n' "".data = 0 := rfl
    rw [h0] at hrs ⊢
    rw [h1]
    omega

/-- Beyond the terabyte band the loop shifts five times or more, the switch has no case for
the count, and the digits are printed without a unit. -/
theorem readableSize_beyond_TB (k n : Nat) (hk : 5 ≤ k) (h1 : 1024 ^ k ≤ n)
    (h2 : n < 1024 ^ (k + 1)) : readableSize n = Nat.repr (n / 1024 ^ k) := by
  have h := readableSizeLoop_band k n 0 h1 h2
  rw [readableSize_of_loop n _ _ h]
  have e4 : ¬ (k = 4) := by omega
  have e3 : ¬ (k = 3) := by omega
  have e2 : ¬ (k = 2) := by omega
  have e1 : ¬ (k = 1) := by omega
  simp [e4, e3, e2, e1]

/-- On a loaded image `Info` returns no error, whatever the ID. -/
theorem Info_returns_no_error (a : App) (fs : String → Except Error FileImage) (path : String)
    (f : FileImage) (id : Nat) (hload : fs path = .ok f) :
    (a.Info fs path id).2 = none := by
  simp only [App.Info, withFileImage, hload, Fprint]

/-- The lookup finds an occupied descriptor that is the only occupied one with its ID. -/
theorem GetFromDescrID_of_mem (f : FileImage) (id : Nat) (d : Descriptor)
    (hd : d ∈ f.DescrArr) (hused : d.Used = true) (hid : d.ID = id)
    (huniq : ∀ e ∈ f.DescrArr, e.Used = true → e.ID = id → e = d) :
    GetFromDescrID f id = .ok d := by
  unfold GetFromDescrID
  cases hfind : f.DescrArr.find? (fun d => d.Used && d.ID == id) with
  | none =>
    have := List.find?_eq_none.1 hfind d hd
    simp [hused, hid] at this
  | some e =>
    have hmem := List.mem_of_find?_eq_some hfind
    have hp := List.find?_some hfind
    simp only [Bool.and_eq_true, beq_iff_eq] at hp
    rw [huniq e hmem hp.1 hp.2]

/-- The output of `writeHeader` when no value contains a tab or a line break. -/
theorem writeHeader_plain (w : Writer) (f : FileImage)
    (hLaunch : plain (TrimSuffix f.LaunchScript "\n").data) (hVersion : plain f.Version.data)
    (hArch : plain f.PrimaryArch.data) (hID : plain f.ID.data)
    (hCtime : plain f.CreatedAt.data) (hMtime : plain f.ModifiedAt.data) :
    writeHeader w f = (w ++ utf8 (String.join (List.map (fun row => row ++ "\n")
      [ "Launch:   " ++ TrimSuffix f.LaunchScript "\n",
        "Version:  " ++ f.Version,
        "Arch:     " ++ f.PrimaryArch,
        "ID:       " ++ f.ID,
        "Ctime:    " ++ f.CreatedAt,
        "Mtime:    " ++ f.ModifiedAt,
        "Dfree:    " ++ Nat.repr f.DescriptorsFree,
        "Dtotal:   " ++ Nat.repr f.DescriptorsTotal,
        "Descoff:  " ++ Nat.repr f.DescriptorSectionOffset,
        "Descrlen: " ++ readableSize f.DescriptorSectionSize,
        "Dataoff:  " ++ Nat.repr f.DataSectionOffset,
        "Datalen:  " ++ readableSize f.DataSectionSize ])).data, none) := by
  unfold writeHeader
  simp only []
  rw [Fprintln_row (NewWriter w) "Launch:\t" _ "Launch:".data rfl (by decide) hLaunch rfl rfl]
  rw [Fprintln_row _ "Version:\t" _ "Version:".data rfl (by decide) hVersion rfl rfl]
  rw [Fprintln_row _ "Arch:\t" _ "Arch:".data rfl (by decide) hArch rfl rfl]
  rw [Fprintln_row _ "ID:\t" _ "ID:".data rfl (by decide) hID rfl rfl]
  rw [Fprintln_row _ "Ctime:\t" _ "Ctime:".data rfl (by decide) hCtime rfl rfl]
  rw [Fprintln_row _ "Mtime:\t" _ "Mtime:".data rfl (by decide) hMtime rfl rfl]
  rw [Fprintln_row _ "Dfree:\t" _ "Dfree:".data rfl (by decide) (plain_repr _) rfl rfl]
  rw [Fprintln_row _ "Dtotal:\t" _ "Dtotal:".data rfl (by decide) (plain_repr _) rfl rfl]
  rw [Fprintln_row _ "Descoff:\t" _ "Descoff:".data rfl (by decide) (plain_repr _) rfl rfl]
  rw [Fprintln_row _ "Descrlen:\t" _ "Descrlen:".data rfl (by decide)
    (plain_readableSize _) rfl rfl]
  rw [Fprintln_row _ "Dataoff:\t" _ "Dataoff:".data rfl (by decide) (plain_repr _) rfl rfl]
  rw [Fprintln_row _ "Datalen:\t" _ "Datalen:".data rfl (by decide)
    (plain_readableSize _) rfl rfl]
  simp only [Writer.Flush, NewWriter, List.nil_append, List.isEmpty_nil, if_true,
    List.cons_append]
  have hr := render_rows
    [ ("Launch:".data, ' ' :: (TrimSuffix f.LaunchScript "\n").data),
      ("Version:".data, ' ' :: f.Version.data),
      ("Arch:".data, ' ' :: f.PrimaryArch.data),
      ("ID:".data, ' ' :: f.ID.data),
      ("Ctime:".data, ' ' :: f.CreatedAt.data),
      ("Mtime:".data, ' ' :: f.ModifiedAt.data),
      ("Dfree:".data, ' ' :: (Nat.repr f.DescriptorsFree).data),
      ("Dtotal:".data, ' ' :: (Nat.repr f.DescriptorsTotal).data),
      ("Descoff:".data, ' ' :: (Nat.repr f.DescriptorSectionOffset).data),
      ("Descrlen:".data, ' ' :: (readableSize f.DescriptorSectionSize).data),
      ("Dataoff:".data, ' ' :: (Nat.repr f.DataSectionOffset).data),
      ("Datalen:".data, ' ' :: (readableSize f.DataSectionSize).data) ] (by simp)
  simp only [List.map_cons, List.map_nil, rowLine, List.cons_append, List.nil_append] at hr
  rw [hr]
  simp [blockWidth, cell.width, String.join]

end siftool

/-! ## Properties of `info.go` -/

namespace siftool
open tabwriter

/-- C1: for an image found at the path, an ID that matches an occupied descriptor `d` (the only
occupied one with that ID) and a data source that holds at least `d.Filelen` bytes from the
start of the descriptor's range, `Dump` appends exactly the first `d.Filelen` bytes of that range
to the sink, whatever bytes follow them in the source, and returns no error. -/
theorem Dump_copies_exactly_Filelen (a : App) (fs : String → Except Error FileImage)
    (path : String) (f : FileImage) (id : Nat) (d : Descriptor)
    (hload : fs path = .ok f) (hd : d ∈ f.DescrArr) (hused : d.Used = true) (hid : d.ID = id)
    (huniq : ∀ e ∈ f.DescrArr, e.Used = true → e.ID = id → e = d)
    (hsrc : d.Filelen ≤ (f.fp.data.drop d.Fileoff).length) :
    a.Dump fs path id = (a.out ++ (f.fp.data.drop d.Fileoff).take d.Filelen, none) ∧
      ((f.fp.data.drop d.Fileoff).take d.Filelen).length = d.Filelen := by
  have hlen : ((f.fp.data.drop d.Fileoff).take d.Filelen).length = d.Filelen := by
    rw [List.length_take]; omega
  refine ⟨?_, hlen⟩
  simp only [App.Dump, withFileImage, hload,
    GetFromDescrID_of_mem f id d hd hused hid huniq, CopyN, Descriptor.GetReader, hlen, if_true]

/-- C1, on the sample image: descriptor 1 has length 100 and the source holds 120 bytes; the
100 bytes of the object are written and no error is returned. -/
theorem Dump_copies_exactly_Filelen_witness :
    (App.mk []).Dump (loaded sampleImage) "image.sif" 1 = (List.replicate 100 7, none) := by
  have h := Dump_copies_exactly_Filelen (App.mk []) (loaded sampleImage) "image.sif"
    sampleImage 1 ⟨true, 1, 2, 0, 100⟩ rfl (by decide) rfl rfl (by decide)
    (by simp [sampleImage])
  simpa [sampleImage] using h.1

/-- C2: when the descriptor lookup fails, `Dump` returns the lookup's error unchanged and the
sink is as it was. -/
theorem Dump_lookup_error (a : App) (fs : String → Except Error FileImage) (path : String)
    (f : FileImage) (id : Nat) (err : Error)
    (hload : fs path = .ok f) (hlookup : GetFromDescrID f id = .error err) :
    a.Dump fs path id = (a.out, some err) := by
  simp only [App.Dump, withFileImage, hload, hlookup]

/-- C2, on the sample image: no occupied descriptor has ID 2, and `Dump` returns the NotFound
error without writing. -/
theorem Dump_lookup_error_witness :
    GetFromDescrID sampleImage 2 = .error .ErrNotFound ∧
      (App.mk [1, 2, 3]).Dump (loaded sampleImage) "image.sif" 2 =
        ([1, 2, 3], some .ErrNotFound) :=
  ⟨rfl, Dump_lookup_error (App.mk [1, 2, 3]) (loaded sampleImage) "image.sif"
    sampleImage 2 .ErrNotFound rfl rfl⟩

/-- C3: when the lookup resolves a descriptor `d` and the data source yields fewer than
`d.Filelen` bytes, `Dump` returns an error (the one the source ends with), and the bytes the
source did yield stay written to the sink. -/
theorem Dump_short_source (a : App) (fs : String → Except Error FileImage) (path : String)
    (f : FileImage) (id : Nat) (d : Descriptor)
    (hload : fs path = .ok f) (hlookup : GetFromDescrID f id = .ok d)
    (hshort : (d.GetReader f).data.length < d.Filelen) :
    a.Dump fs path id = (a.out ++ (d.GetReader f).data, some (d.GetReader f).fail) := by
  have htake : (d.GetReader f).data.take d.Filelen = (d.GetReader f).data :=
    List.take_of_length_le (by omega)
  have hne : ¬ (d.GetReader f).data.length = d.Filelen := by omega
  simp only [App.Dump, withFileImage, hload, hlookup, CopyN, htake, hne, if_false]

/-- C3, on the truncated image: descriptor 1 declares 100 bytes, the source ends after 40; the
40 bytes are written and `Dump` returns the end-of-file error. -/
theorem Dump_short_source_witness :
    (App.mk []).Dump (loaded truncatedImage) "image.sif" 1 =
      (List.replicate 40 7, some .EOF) := by
  have h := Dump_short_source (App.mk []) (loaded truncatedImage) "image.sif"
    truncatedImage 1 ⟨true, 1, 2, 0, 100⟩ rfl rfl
    (by simp [truncatedImage, Descriptor.GetReader])
  simpa [truncatedImage, Descriptor.GetReader] using h

/-- C4, at the failing input: on the sample image no occupied descriptor has ID 2 (the lookup
that `Dump` uses reports NotFound), yet `Info` writes nothing and returns no error. -/
theorem Info_unknown_ID_returns_no_error :
    GetFromDescrID sampleImage 2 = .error .ErrNotFound ∧
      (App.mk []).Info (loaded sampleImage) "image.sif" 2 = ([], none) :=
  ⟨rfl, rfl⟩

/-- C5: for `n < 1024`, `readableSize n` is the decimal digits of `n`, with no suffix. -/
theorem readableSize_below_1024 (n : Nat) (h : n < 1024) : readableSize n = Nat.repr n := by
  rw [readableSize_of_loop n n 0 (readableSizeLoop_lt n 0 h)]
  simp

/-- C5, at the two ends: 0 gives "0" and 1023 gives "1023". -/
theorem readableSize_below_1024_witness :
    readableSize 0 = "0" ∧ readableSize 1023 = "1023" :=
  ⟨readableSize_below_1024 0 (by decide), readableSize_below_1024 1023 (by decide)⟩

/-- C6: for `1024 ≤ n < 1024^2`, `readableSize n` is the decimal digits of `n / 1024` (rounded
down) followed by "KB". -/
theorem readableSize_KB (n : Nat) (h1 : 1024 ≤ n) (h2 : n < 1024 ^ 2) :
    readableSize n = Nat.repr (n / 1024) ++ "KB" := by
  have h := readableSizeLoop_band 1 n 0 (by simpa using h1) h2
  rw [readableSize_of_loop n _ _ h]
  simp

/-- C6, at 1024 and 1500: both give "1KB". -/
theorem readableSize_KB_witness :
    readableSize 1024 = "1KB" ∧ readableSize 1500 = "1KB" :=
  ⟨readableSize_KB 1024 (by decide) (by decide), readableSize_KB 1500 (by decide) (by decide)⟩

/-- C7, at the failing input: `1024^5` is a 64-bit byte count of at least `1024^4`, the loop
divides it five times, and `readableSize` returns "1", without the "TB" suffix. -/
theorem readableSize_1024_pow_5 :
    1024 ^ 4 ≤ 1024 ^ 5 ∧ 1024 ^ 5 < 2 ^ 64 ∧ readableSizeLoop (1024 ^ 5) 0 = (1, 5) ∧
      readableSize (1024 ^ 5) = "1" := by
  have h := readableSizeLoop_band 5 (1024 ^ 5) 0 (le_refl _) (by norm_num)
  have h1 : (1024 : Nat) ^ 5 / 1024 ^ 5 = 1 := by norm_num
  rw [h1] at h
  refine ⟨by norm_num, by norm_num, h, ?_⟩
  rw [readableSize_of_loop _ _ _ h]
  decide

/-- C8: for `k` in 2, 3, 4 and `1024^k ≤ n < 1024^(k+1)`, `readableSize n` is the decimal digits
of `n / 1024^k` followed by "MB" for 2, "GB" for 3 and "TB" for 4. -/
theorem readableSize_MB_GB_TB (k n : Nat) (hk : k = 2 ∨ k = 3 ∨ k = 4)
    (h1 : 1024 ^ k ≤ n) (h2 : n < 1024 ^ (k + 1)) :
    readableSize n = Nat.repr (n / 1024 ^ k) ++
      (if k = 2 then "MB" else if k = 3 then "GB" else "TB") := by
  have h := readableSizeLoop_band k n 0 h1 h2
  rw [readableSize_of_loop n _ _ h]
  rcases hk with rfl | rfl | rfl <;> simp

/-- C8, at 5 MiB, 3 GiB and 2 TiB plus one byte. -/
theorem readableSize_MB_GB_TB_witness :
    readableSize 5242880 = "5MB" ∧ readableSize 3221225472 = "3GB" ∧
      readableSize 2199023255553 = "2TB" :=
  ⟨readableSize_MB_GB_TB 2 5242880 (by decide) (by decide) (by decide),
   readableSize_MB_GB_TB 3 3221225472 (by decide) (by decide) (by decide),
   readableSize_MB_GB_TB 4 2199023255553 (by decide) (by decide) (by decide)⟩

/-- C9, as stated, fails on an image whose launch script has two lines: only the trailing
newline is stripped, the launch script takes two lines of the output, and the header has
thirteen lines. -/
theorem writeHeader_two_line_launch_script :
    writeHeader [] twoLineLaunchImage =
      (utf8 ("Launch: #!/bin/sh\nexec run\nVersion:  01\nArch:     amd64\n" ++
        "ID:       7fa9d4a3-2bb0-4c5e-9a4b-1c2d3e4f5a6b\n" ++
        "Ctime:    2021-06-01 12:00:00 +0000 UTC\nMtime:    2021-06-02 08:30:00 +0000 UTC\n" ++
        "Dfree:    47\nDtotal:   48\nDescoff:  4096\nDescrlen: 4KB\nDataoff:  32768\n" ++
        "Datalen:  8KB\n").data, none) ∧
    lineCount (writeHeader [] twoLineLaunchImage).1 = 13 := by
  have h : writeHeader [] twoLineLaunchImage =
      (utf8 ("Launch: #!/bin/sh\nexec run\nVersion:  01\nArch:     amd64\n" ++
        "ID:       7fa9d4a3-2bb0-4c5e-9a4b-1c2d3e4f5a6b\n" ++
        "Ctime:    2021-06-01 12:00:00 +0000 UTC\nMtime:    2021-06-02 08:30:00 +0000 UTC\n" ++
        "Dfree:    47\nDtotal:   48\nDescoff:  4096\nDescrlen: 4KB\nDataoff:  32768\n" ++
        "Datalen:  8KB\n").data, none) := by
    unfold writeHeader
    simp only [twoLineLaunchImage, sampleImage]
    rw [readableSize_4096, readableSize_8192]
    decide!
  refine ⟨h, ?_⟩
  rw [h]
  decide!

/-- C9, amended: for every image whose launch script (its trailing newline stripped), version,
architecture, ID and times contain no tab, vertical tab, newline or form feed, `writeHeader`
writes twelve lines, one field per line, in the order launch script, version, primary
architecture, ID, creation time, modification time, free descriptors, total descriptors,
descriptor-section offset, descriptor-section size, data-section offset, data-section size; the
two sizes are `readableSize` of the byte counts; it returns no error. -/
theorem writeHeader_twelve_lines (w : Writer) (f : FileImage)
    (hLaunch : plain (TrimSuffix f.LaunchScript "\n").data) (hVersion : plain f.Version.data)
    (hArch : plain f.PrimaryArch.data) (hID : plain f.ID.data)
    (hCtime : plain f.CreatedAt.data) (hMtime : plain f.ModifiedAt.data) :
    writeHeader w f = (w ++ utf8 (String.join (List.map (fun row => row ++ "\n")
      [ "Launch:   " ++ TrimSuffix f.LaunchScript "\n",
        "Version:  " ++ f.Version,
        "Arch:     " ++ f.PrimaryArch,
        "ID:       " ++ f.ID,
        "Ctime:    " ++ f.CreatedAt,
        "Mtime:    " ++ f.ModifiedAt,
        "Dfree:    " ++ Nat.repr f.DescriptorsFree,
        "Dtotal:   " ++ Nat.repr f.DescriptorsTotal,
        "Descoff:  " ++ Nat.repr f.DescriptorSectionOffset,
        "Descrlen: " ++ readableSize f.DescriptorSectionSize,
        "Dataoff:  " ++ Nat.repr f.DataSectionOffset,
        "Datalen:  " ++ readableSize f.DataSectionSize ])).data, none) ∧
    lineCount (writeHeader w f).1 = lineCount w + 12 := by
  have h := writeHeader_plain w f hLaunch hVersion hArch hID hCtime hMtime
  refine ⟨h, ?_⟩
  rw [h]
  have happ : ∀ x y : Writer, lineCount (x ++ y) = lineCount x + lineCount y := by
    intro x y; simp [lineCount]
  have hR := plain_repr
  have hS := plain_readableSize
  rw [happ, lineCount_utf8, count_newline_rows]
  · rfl
  · intro r hr
    simp only [List.mem_cons, List.mem_singleton, List.not_mem_nil, or_false] at hr
    rcases hr with rfl | rfl | rfl | rfl | rfl | rfl | rfl | rfl | rfl | rfl | rfl | rfl <;>
      rw [String.data_append] <;>
      first
        | exact plain_append (by decide) hLaunch
        | exact plain_append (by decide) hVersion
        | exact plain_append (by decide) hArch
        | exact plain_append (by decide) hID
        | exact plain_append (by decide) hCtime
        | exact plain_append (by decide) hMtime
        | exact plain_append (by decide) (hR _)
        | exact plain_append (by decide) (hS _)

/-- C9, amended, on the sample image: its twelve header lines. -/
theorem writeHeader_twelve_lines_witness :
    plain (TrimSuffix sampleImage.LaunchScript "\n").data ∧
    writeHeader [] sampleImage =
      (utf8 ("Launch:   #!/usr/bin/env run-singularity\nVersion:  01\nArch:     amd64\n" ++
        "ID:       7fa9d4a3-2bb0-4c5e-9a4b-1c2d3e4f5a6b\n" ++
        "Ctime:    2021-06-01 12:00:00 +0000 UTC\nMtime:    2021-06-02 08:30:00 +0000 UTC\n" ++
        "Dfree:    47\nDtotal:   48\nDescoff:  4096\nDescrlen: 4KB\nDataoff:  32768\n" ++
        "Datalen:  8KB\n").data, none) ∧
    lineCount (writeHeader [] sampleImage).1 = 12 := by
  have h := writeHeader_twelve_lines [] sampleImage (by decide) (by decide) (by decide)
    (by decide) (by decide) (by decide)
  refine ⟨by decide, ?_, h.2⟩
  rw [h.1]
  simp only [sampleImage]
  rw [readableSize_4096, readableSize_8192]
  decide!

/-- C10: for every byte count `n` (64-bit or not) the loop of `readableSize` returns: it shifts
`n` right by 10 bits until the value falls below 1024, whatever number `k` of shifts that takes:
every value before the `k`-th shift is 1024 or more, the value after it is below 1024, the loop
yields that value and `k`, and that value is the integer `readableSize` prints (followed by the
unit of `k`, or by nothing). -/
theorem readableSize_loop_returns_below_1024 (n : Nat) :
    ∃ k, (∀ j, j < k → 1024 ≤ n >>> (10 * j)) ∧ n >>> (10 * k) < 1024 ∧
      readableSizeLoop n 0 = (n >>> (10 * k), k) ∧
      readableSize n = Nat.repr (n >>> (10 * k)) ++
        (if k = 4 then "TB" else if k = 3 then "GB" else if k = 2 then "MB"
          else if k = 1 then "KB" else "") := by
  obtain ⟨k, hk, hlt, hmin⟩ := readableSizeLoop_total n 0
  rw [Nat.zero_add] at hk
  exact ⟨k, hmin, hlt, hk, readableSize_of_loop n _ _ hk⟩

/-- C10, at the largest 64-bit byte count: six shifts, and the integer printed is 15. -/
theorem readableSize_loop_returns_below_1024_witness :
    readableSizeLoop 18446744073709551615 0 = (15, 6) ∧
      readableSize 18446744073709551615 = "15" := by
  obtain ⟨k, hmin, hlt, hloop, htext⟩ :=
    readableSize_loop_returns_below_1024 18446744073709551615
  have hle : k ≤ 6 := by
    by_contra hgt
    exact absurd (hmin 6 (by omega)) (by decide)
  have hk : k = 6 := by
    interval_cases k <;> first
      | rfl
      | exact absurd hlt (by decide)
  subst hk
  exact ⟨hloop, htext⟩

end siftool
